import Mathlib

/-!
Verification of the heart 2D drawing framework core.

Shallow embedding of the graphics core of the repository:
the 3x3 affine transform (src/graphics/transform.rs), the quadtree atlas
packer (src/graphics/sprite/sheet_assembly.rs), the rectangle and sprite
batches and the render list with its public mutation surface
(src/graphics.rs, src/graphics/rectangle.rs, src/graphics/sprite.rs,
src/graphics/context.rs) and image creation (src/image.rs).

Machine integers (u32, usize) are modelled as Nat: all sizes and
coordinates reached by the packer and the registry stay far below the
wrapping bounds. f32 arithmetic is modelled as exact real arithmetic.
Rust panics are modelled as Option (none) or Except.error results.
-/

namespace Heart

/-! ## Transform (src/graphics/transform.rs) -/

/-- One row of the 3x3 row-major matrix, struct Row in transform.rs. -/
structure Row where
  x : ℝ
  y : ℝ
  z : ℝ

/-- The 3x3 row-major affine matrix, struct Transform in transform.rs. -/
structure Transform where
  x : Row
  y : Row
  z : Row

noncomputable section

def Transform.identity : Transform :=
  ⟨⟨1, 0, 0⟩, ⟨0, 1, 0⟩, ⟨0, 0, 1⟩⟩

def Transform.translation (x y : ℝ) : Transform :=
  ⟨⟨1, 0, x⟩, ⟨0, 1, y⟩, ⟨0, 0, 1⟩⟩

def Transform.scaling (x y : ℝ) : Transform :=
  ⟨⟨x, 0, 0⟩, ⟨0, y, 0⟩, ⟨0, 0, 1⟩⟩

def Transform.rotation (angle : ℝ) : Transform :=
  ⟨⟨Real.cos angle, -Real.sin angle, 0⟩,
   ⟨Real.sin angle, Real.cos angle, 0⟩,
   ⟨0, 0, 1⟩⟩

def Transform.shearing (x y : ℝ) : Transform :=
  ⟨⟨1, x, 0⟩, ⟨y, 1, 0⟩, ⟨0, 0, 1⟩⟩

/-- Matrix product, Transform::combine in transform.rs. -/
def Transform.combine (self other : Transform) : Transform :=
  ⟨⟨self.x.x * other.x.x + self.x.y * other.y.x + self.x.z * other.z.x,
    self.x.x * other.x.y + self.x.y * other.y.y + self.x.z * other.z.y,
    self.x.x * other.x.z + self.x.y * other.y.z + self.x.z * other.z.z⟩,
   ⟨self.y.x * other.x.x + self.y.y * other.y.x + self.y.z * other.z.x,
    self.y.x * other.x.y + self.y.y * other.y.y + self.y.z * other.z.y,
    self.y.x * other.x.z + self.y.y * other.y.z + self.y.z * other.z.z⟩,
   ⟨self.z.x * other.x.x + self.z.y * other.y.x + self.z.z * other.z.x,
    self.z.x * other.x.y + self.z.y * other.y.y + self.z.z * other.z.y,
    self.z.x * other.x.z + self.z.y * other.y.z + self.z.z * other.z.z⟩⟩

def Transform.translate (self : Transform) (x y : ℝ) : Transform :=
  (Transform.translation x y).combine self

def Transform.scale (self : Transform) (x y : ℝ) : Transform :=
  (Transform.scaling x y).combine self

def Transform.rotate (self : Transform) (angle : ℝ) : Transform :=
  (Transform.rotation angle).combine self

def Transform.shear (self : Transform) (x y : ℝ) : Transform :=
  (Transform.shearing x y).combine self

/-- The homogeneous divisor vec.z computed by Transform::apply. -/
def Transform.applyDivisor (self : Transform) (x y : ℝ) : ℝ :=
  self.z.x * x + self.z.y * y + self.z.z

/-- Point application, Transform::apply in transform.rs. -/
def Transform.apply (self : Transform) (x y : ℝ) : ℝ × ℝ :=
  let vx := self.x.x * x + self.x.y * y + self.x.z
  let vy := self.y.x * x + self.y.y * y + self.y.z
  let vz := self.z.x * x + self.z.y * y + self.z.z
  (vx / vz, vy / vz)

end

/-- Entrywise closeness of two transforms within tolerance e. -/
def Transform.close (t u : Transform) (e : ℝ) : Prop :=
  |t.x.x - u.x.x| ≤ e ∧ |t.x.y - u.x.y| ≤ e ∧ |t.x.z - u.x.z| ≤ e ∧
  |t.y.x - u.y.x| ≤ e ∧ |t.y.y - u.y.y| ≤ e ∧ |t.y.z - u.y.z| ≤ e ∧
  |t.z.x - u.z.x| ≤ e ∧ |t.z.y - u.z.y| ≤ e ∧ |t.z.z - u.z.z| ≤ e

/-- The transforms reachable from the five constructors, closed under
combine (translate, scale, rotate and shear are combine with a
constructor, so they are covered as well). -/
inductive Transform.Reachable : Transform → Prop
  | identity : Transform.Reachable Transform.identity
  | translation (x y : ℝ) : Transform.Reachable (Transform.translation x y)
  | scaling (x y : ℝ) : Transform.Reachable (Transform.scaling x y)
  | rotation (a : ℝ) : Transform.Reachable (Transform.rotation a)
  | shearing (x y : ℝ) : Transform.Reachable (Transform.shearing x y)
  | combine {t u : Transform} : Transform.Reachable t → Transform.Reachable u →
      Transform.Reachable (t.combine u)

theorem Transform.combine_assoc (t u v : Transform) :
    (t.combine u).combine v = t.combine (u.combine v) := by
  cases t with
  | mk tx ty tz =>
    cases u with
    | mk ux uy uz =>
      cases v with
      | mk vx vy vz =>
        simp only [Transform.combine, Transform.mk.injEq, Row.mk.injEq]
        refine ⟨⟨?_, ?_, ?_⟩, ⟨?_, ?_, ?_⟩, ?_, ?_, ?_⟩ <;> ring

/-- C2: identity().apply(x,y) = [x,y]; translate(a,b).apply(x,y) = [x+a,y+b];
scale(a,b).apply(x,y) = [a*x,b*y]; rotate(pi/2).apply(1,0) is within 1e-6 of
[0,1]; combine is associative within 1e-5 (exactly, in the real model).
translate, scale and rotate are applied to the identity transform. -/
theorem transform_algebra :
    (∀ x y : ℝ, Transform.identity.apply x y = (x, y)) ∧
    (∀ x y a b : ℝ, (Transform.identity.translate a b).apply x y = (x + a, y + b)) ∧
    (∀ x y a b : ℝ, (Transform.identity.scale a b).apply x y = (a * x, b * y)) ∧
    (|((Transform.identity.rotate (Real.pi / 2)).apply 1 0).1 - 0| ≤ 1 / 1000000 ∧
     |((Transform.identity.rotate (Real.pi / 2)).apply 1 0).2 - 1| ≤ 1 / 1000000) ∧
    (∀ t u v : Transform,
      Transform.close ((t.combine u).combine v) (t.combine (u.combine v)) (1 / 100000)) := by
  refine ⟨?_, ?_, ?_, ?_, ?_⟩
  · intro x y
    simp [Transform.apply, Transform.identity]
  · intro x y a b
    simp [Transform.apply, Transform.translate, Transform.translation,
      Transform.identity, Transform.combine]
  · intro x y a b
    simp [Transform.apply, Transform.scale, Transform.scaling,
      Transform.identity, Transform.combine]
  · constructor <;>
      simp [Transform.apply, Transform.rotate, Transform.rotation,
        Transform.identity, Transform.combine, Real.cos_pi_div_two,
        Real.sin_pi_div_two]
  · intro t u v
    rw [Transform.combine_assoc]
    simp only [Transform.close, sub_self, abs_zero]
    norm_num

/-- C9: every transform reachable from the constructors and closed under
combine has bottom row exactly (0, 0, 1), so the homogeneous divisor in
apply is exactly 1 and apply never divides by zero. -/
theorem transform_reachable_affine {t : Transform} (h : Transform.Reachable t) :
    t.z = ⟨0, 0, 1⟩ ∧ ∀ x y : ℝ, t.applyDivisor x y = 1 := by
  have hz : t.z = ⟨0, 0, 1⟩ := by
    induction h with
    | identity => rfl
    | translation x y => rfl
    | scaling x y => rfl
    | rotation a => rfl
    | shearing x y => rfl
    | combine h1 h2 ih1 ih2 =>
      simp only [Transform.combine]
      rw [ih1, ih2]
      simp
  refine ⟨hz, fun x y => ?_⟩
  simp only [Transform.applyDivisor]
  rw [hz]
  simp

/-- Witness for C9 at the identity transform. -/
theorem transform_reachable_affine_witness :
    Transform.identity.z = ⟨0, 0, 1⟩ ∧
      ∀ x y : ℝ, Transform.identity.applyDivisor x y = 1 :=
  transform_reachable_affine Transform.Reachable.identity

/-! ## Atlas packer (src/graphics/sprite/sheet_assembly.rs) -/

/-- Integer pixel rectangle, struct TextureRegion of sprite.rs. -/
structure TextureRegion (T : Type) where
  left : T
  top : T
  right : T
  bottom : T
deriving DecidableEq, Repr

/-- Enum AllocError of sheet_assembly.rs. -/
inductive AllocError where
  | Occupied
  | Undersized
  | EmptyUndersized
deriving DecidableEq, Repr

/-- Quadtree node, enum Node of sheet_assembly.rs. The boxed Subdivision
struct is inlined as four children in the order top_left, top_right,
bottom_left, bottom_right. -/
inductive Node where
  | Leaf (size : Nat)
  | Subdivided (size : Nat) (top_left top_right bottom_left bottom_right : Node)
  | Empty (size : Nat) (x y : Nat)
deriving DecidableEq, Repr

namespace Node

/-- Node::empty. -/
def empty : Node := .Empty 0 0 0

/-- Node::subdivided. -/
def subdivided (outer_size : Nat) : Node :=
  .Subdivided outer_size
    (.Empty (outer_size / 2) 0 0)
    (.Empty (outer_size / 2) (outer_size / 2) 0)
    (.Empty (outer_size / 2) 0 (outer_size / 2))
    (.Empty (outer_size / 2) (outer_size / 2) (outer_size / 2))

/-- Node::leaf. -/
def leaf (size : Nat) : Node := .Leaf size

/-- Node::size. -/
def size : Node → Nat
  | .Leaf s => s
  | .Subdivided s _ _ _ _ => s
  | .Empty s _ _ => s

/-- Node::empty_alloc. Mutation of self is modelled by returning the new
node next to the returned position; the panic branches are none. -/
def empty_alloc (n : Node) (sprite_size : Nat) : Option ((Nat × Nat) × Node) :=
  match n with
  | .Empty size x y =>
    if _h : sprite_size < size then
      match (Node.Empty (size / 2) x y).empty_alloc sprite_size with
      | none => none
      | some (allocation, top_left) =>
        some (allocation, .Subdivided size top_left
          (.Empty (size / 2) (x + size / 2) y)
          (.Empty (size / 2) x (y + size / 2))
          (.Empty (size / 2) (x + size / 2) (y + size / 2)))
    else if sprite_size = size then
      some ((x, y), .Leaf size)
    else none
  | _ => none
termination_by n.size
decreasing_by simp [Node.size]; omega

/-- Node::realloc, re-embedding an old tree into an Empty node. The
top_left child is created with its y coordinate set to x, exactly as the
source does. The panic branches are none. -/
def realloc (n : Node) (old : Node) : Option Node :=
  match n with
  | .Empty size x y =>
    if _h : old.size < size then
      match (Node.Empty (size / 2) x x).realloc old with
      | none => none
      | some top_left =>
        some (.Subdivided size top_left
          (.Empty (size / 2) (x + size / 2) y)
          (.Empty (size / 2) x (y + size / 2))
          (.Empty (size / 2) (x + size / 2) (y + size / 2)))
    else if old.size = size then some old
    else none
  | _ => none
termination_by n.size
decreasing_by simp [Node.size]; omega

/-- Modelled from the spec: the corrected variant of Node::realloc whose
top_left child carries y := y, the reimplementation the spec asks for.
Used only to compare against the source realloc for the refinement claim. -/
def realloc_fixed (n : Node) (old : Node) : Option Node :=
  match n with
  | .Empty size x y =>
    if _h : old.size < size then
      match (Node.Empty (size / 2) x y).realloc_fixed old with
      | none => none
      | some top_left =>
        some (.Subdivided size top_left
          (.Empty (size / 2) (x + size / 2) y)
          (.Empty (size / 2) x (y + size / 2))
          (.Empty (size / 2) (x + size / 2) (y + size / 2)))
    else if old.size = size then some old
    else none
  | _ => none
termination_by n.size
decreasing_by simp [Node.size]; omega

/-- Node::try_alloc. Error results leave the tree unchanged in the source,
so the error constructor carries no tree. The unreachable! branches in the
child loop are none. Children are tried in the source order top_left,
top_right, bottom_left, bottom_right. -/
def try_alloc (n : Node) (sprite_size : Nat) :
    Option (Except AllocError ((Nat × Nat) × Node)) :=
  match n with
  | .Leaf size =>
    if sprite_size ≤ size then some (.error .Occupied)
    else some (.error .Undersized)
  | .Subdivided size top_left top_right bottom_left bottom_right =>
    if sprite_size < size then
      match top_left.try_alloc sprite_size with
      | some (.ok (allocation, c)) =>
        some (.ok (allocation, .Subdivided size c top_right bottom_left bottom_right))
      | some (.error .Occupied) =>
        match top_right.try_alloc sprite_size with
        | some (.ok (allocation, c)) =>
          some (.ok (allocation, .Subdivided size top_left c bottom_left bottom_right))
        | some (.error .Occupied) =>
          match bottom_left.try_alloc sprite_size with
          | some (.ok (allocation, c)) =>
            some (.ok (allocation, .Subdivided size top_left top_right c bottom_right))
          | some (.error .Occupied) =>
            match bottom_right.try_alloc sprite_size with
            | some (.ok (allocation, c)) =>
              some (.ok (allocation, .Subdivided size top_left top_right bottom_left c))
            | some (.error .Occupied) => some (.error .Occupied)
            | _ => none
          | _ => none
        | _ => none
      | _ => none
    else if sprite_size = size then some (.error .Occupied)
    else some (.error .Undersized)
  | .Empty size x y =>
    if sprite_size ≤ size then
      match (Node.Empty size x y).empty_alloc sprite_size with
      | none => none
      | some r => some (.ok r)
    else some (.error .EmptyUndersized)

end Node

/-- Models u32::next_power_of_two: the smallest power of two greater than
or equal to n, mapping 0 to 1. -/
def next_power_of_two (n : Nat) : Nat := 2 ^ Nat.clog 2 n

namespace Node

/-- Node::alloc: allocate a square of edge next_power_of_two (max w h) and
return the rectangle (x, y, x + w, y + h) together with the new tree. -/
def alloc (n : Node) (width height : Nat) : Option (TextureRegion Nat × Node) :=
  let normalized_size := next_power_of_two (max width height)
  let result : Option ((Nat × Nat) × Node) :=
    match n.try_alloc normalized_size with
    | none => none
    | some (.ok r) => some r
    | some (.error .Occupied) =>
      let outer := n.size * 2
      match (Node.Empty (outer / 2) (outer / 2) 0).empty_alloc normalized_size with
      | none => none
      | some (allocation, top_right) =>
        some (allocation, .Subdivided outer n top_right
          (.Empty (outer / 2) 0 (outer / 2))
          (.Empty (outer / 2) (outer / 2) (outer / 2)))
    | some (.error .Undersized) =>
      let outer := normalized_size * 2
      match (Node.Empty (outer / 2) 0 0).realloc n with
      | none => none
      | some top_left =>
        some ((normalized_size, 0), .Subdivided outer top_left (Node.leaf normalized_size)
          (.Empty (outer / 2) 0 (outer / 2))
          (.Empty (outer / 2) (outer / 2) (outer / 2)))
    | some (.error .EmptyUndersized) =>
      some ((0, 0), Node.leaf normalized_size)
  match result with
  | none => none
  | some ((x, y), t) => some (⟨x, y, x + width, y + height⟩, t)

/-- Modelled from the spec: Node::alloc with realloc replaced by the
corrected realloc_fixed, otherwise identical. Used only for the
refinement claim. -/
def alloc_fixed (n : Node) (width height : Nat) : Option (TextureRegion Nat × Node) :=
  let normalized_size := next_power_of_two (max width height)
  let result : Option ((Nat × Nat) × Node) :=
    match n.try_alloc normalized_size with
    | none => none
    | some (.ok r) => some r
    | some (.error .Occupied) =>
      let outer := n.size * 2
      match (Node.Empty (outer / 2) (outer / 2) 0).empty_alloc normalized_size with
      | none => none
      | some (allocation, top_right) =>
        some (allocation, .Subdivided outer n top_right
          (.Empty (outer / 2) 0 (outer / 2))
          (.Empty (outer / 2) (outer / 2) (outer / 2)))
    | some (.error .Undersized) =>
      let outer := normalized_size * 2
      match (Node.Empty (outer / 2) 0 0).realloc_fixed n with
      | none => none
      | some top_left =>
        some ((normalized_size, 0), .Subdivided outer top_left (Node.leaf normalized_size)
          (.Empty (outer / 2) 0 (outer / 2))
          (.Empty (outer / 2) (outer / 2) (outer / 2)))
    | some (.error .EmptyUndersized) =>
      some ((0, 0), Node.leaf normalized_size)
  match result with
  | none => none
  | some ((x, y), t) => some (⟨x, y, x + width, y + height⟩, t)

end Node

/-- Runs a sequence of alloc calls on a tree, collecting the returned
regions in call order; none if any call hits a panic branch. -/
def runAllocs (n : Node) : List (Nat × Nat) → Option (List (TextureRegion Nat) × Node)
  | [] => some ([], n)
  | (w, h) :: rest =>
    match n.alloc w h with
    | none => none
    | some (r, n2) =>
      match runAllocs n2 rest with
      | none => none
      | some (rs, nf) => some (r :: rs, nf)

/-- Root size after running a sequence of alloc calls on a fresh packer. -/
def rootSizeAfter (reqs : List (Nat × Nat)) : Option Nat :=
  (runAllocs Node.empty reqs).map fun p => p.2.size

/-! ## Region disjointness -/

/-- Membership of an integer point in a half-open rectangle. -/
def inRegion (r : TextureRegion Nat) (px py : Nat) : Prop :=
  r.left ≤ px ∧ px < r.right ∧ r.top ≤ py ∧ py < r.bottom

/-- Two regions are disjoint when no integer point lies in both. -/
def RegionDisjoint (r1 r2 : TextureRegion Nat) : Prop :=
  ∀ px py : Nat, ¬(inRegion r1 px py ∧ inRegion r2 px py)

/-- Arithmetic separation of two regions along some axis. -/
def RegionSep (r1 r2 : TextureRegion Nat) : Prop :=
  r1.right ≤ r2.left ∨ r2.right ≤ r1.left ∨ r1.bottom ≤ r2.top ∨ r2.bottom ≤ r1.top

instance : DecidableRel RegionSep := fun r1 r2 => by
  unfold RegionSep; infer_instance

theorem RegionSep.disjoint {r1 r2 : TextureRegion Nat} (h : RegionSep r1 r2) :
    RegionDisjoint r1 r2 := by
  intro px py hmem
  rcases hmem with ⟨⟨a1, a2, a3, a4⟩, b1, b2, b3, b4⟩
  rcases h with h | h | h | h <;> omega

theorem next_pow_sixteen : next_power_of_two 16 = 16 := by
  have h : (16 : Nat) = 2 ^ 4 := by norm_num
  rw [next_power_of_two, h, Nat.clog_pow 2 4 (by norm_num)]

theorem next_pow_thirtytwo : next_power_of_two 32 = 32 := by
  have h : (32 : Nat) = 2 ^ 5 := by norm_num
  rw [next_power_of_two, h, Nat.clog_pow 2 5 (by norm_num)]

/-- C3: allocating (16,16) four times then (32,32) on a fresh packer makes
the root size 16 after the first call, 32 after the second through fourth
calls, 64 after the fifth; the five returned regions are pairwise disjoint
and lie within [0, 64) squared. -/
theorem packer_scenario :
    rootSizeAfter [(16, 16)] = some 16 ∧
    rootSizeAfter [(16, 16), (16, 16)] = some 32 ∧
    rootSizeAfter [(16, 16), (16, 16), (16, 16)] = some 32 ∧
    rootSizeAfter [(16, 16), (16, 16), (16, 16), (16, 16)] = some 32 ∧
    ∃ rs tf,
      runAllocs Node.empty [(16, 16), (16, 16), (16, 16), (16, 16), (32, 32)] =
        some (rs, tf) ∧
      tf.size = 64 ∧
      rs = [⟨0, 0, 16, 16⟩, ⟨16, 0, 32, 16⟩, ⟨0, 16, 16, 32⟩,
        ⟨16, 16, 32, 32⟩, ⟨32, 0, 64, 32⟩] ∧
      List.Pairwise RegionDisjoint rs ∧
      ∀ r ∈ rs, r.right ≤ 64 ∧ r.bottom ≤ 64 := by
  have hrun : runAllocs Node.empty [(16, 16), (16, 16), (16, 16), (16, 16), (32, 32)] =
      some ([⟨0, 0, 16, 16⟩, ⟨16, 0, 32, 16⟩, ⟨0, 16, 16, 32⟩,
          ⟨16, 16, 32, 32⟩, ⟨32, 0, 64, 32⟩],
        .Subdivided 64 (.Subdivided 32 (.Leaf 16) (.Leaf 16) (.Leaf 16) (.Leaf 16))
          (.Leaf 32) (.Empty 32 0 32) (.Empty 32 32 32)) := by
    simp [runAllocs, Node.alloc, Node.try_alloc, Node.empty_alloc, Node.empty,
      Node.size, Node.leaf, Node.realloc, next_pow_sixteen, next_pow_thirtytwo]
  have hsep : List.Pairwise RegionSep
      ([⟨0, 0, 16, 16⟩, ⟨16, 0, 32, 16⟩, ⟨0, 16, 16, 32⟩,
        ⟨16, 16, 32, 32⟩, ⟨32, 0, 64, 32⟩] : List (TextureRegion Nat)) := by
    decide
  refine ⟨?_, ?_, ?_, ?_, _, _, hrun, rfl, rfl,
    hsep.imp (fun h => RegionSep.disjoint h), by decide⟩ <;>
    simp [rootSizeAfter, runAllocs, Node.alloc, Node.try_alloc, Node.empty_alloc,
      Node.empty, Node.size, Node.leaf, Node.realloc, next_pow_sixteen,
      next_pow_thirtytwo]

/-! ## Packer invariant: well-formedness and occupied squares -/

namespace Node

/-- Well-formedness of a node whose square is rooted at absolute position
(x, y): sizes are powers of two (zero permitted for an Empty root),
Subdivided children have edge size / 2 and occupy their quadrants, and
Empty nodes store exactly their absolute position. -/
def WF : Node → Nat → Nat → Prop
  | .Leaf s, _, _ => ∃ k, s = 2 ^ k
  | .Empty s ex ey, x, y => ex = x ∧ ey = y ∧ (s = 0 ∨ ∃ k, s = 2 ^ k)
  | .Subdivided s tl tr bl br, x, y =>
      (∃ k, s = 2 ^ (k + 1)) ∧
      tl.size = s / 2 ∧ tr.size = s / 2 ∧ bl.size = s / 2 ∧ br.size = s / 2 ∧
      WF tl x y ∧ WF tr (x + s / 2) y ∧ WF bl x (y + s / 2) ∧
      WF br (x + s / 2) (y + s / 2)

/-- The occupied Leaf squares of a tree rooted at (x, y), as
(x, y, edge) triples, in depth-first child order. -/
def squares : Node → Nat → Nat → List (Nat × Nat × Nat)
  | .Leaf s, x, y => [(x, y, s)]
  | .Empty _ _ _, _, _ => []
  | .Subdivided s tl tr bl br, x, y =>
      squares tl x y ++ squares tr (x + s / 2) y ++
        squares bl x (y + s / 2) ++ squares br (x + s / 2) (y + s / 2)

end Node

/-- Arithmetic separation of two squares given as (x, y, edge) triples. -/
def SqDisjoint (a b : Nat × Nat × Nat) : Prop :=
  a.1 + a.2.2 ≤ b.1 ∨ b.1 + b.2.2 ≤ a.1 ∨
    a.2.1 + a.2.2 ≤ b.2.1 ∨ b.2.1 + b.2.2 ≤ a.2.1

theorem sqDisjoint_symm : Symmetric SqDisjoint := by
  intro a b h
  unfold SqDisjoint at h ⊢
  tauto

/-- Every occupied square of a well-formed tree lies inside the square of
the tree and has positive edge. -/
theorem squares_bounds : ∀ (n : Node) (x y : Nat), n.WF x y →
    ∀ q ∈ n.squares x y,
      x ≤ q.1 ∧ q.1 + q.2.2 ≤ x + n.size ∧ y ≤ q.2.1 ∧
        q.2.1 + q.2.2 ≤ y + n.size ∧ 1 ≤ q.2.2 := by
  intro n
  induction n with
  | Leaf s =>
    intro x y hwf q hq
    obtain ⟨k, rfl⟩ := hwf
    simp only [Node.squares, List.mem_singleton] at hq
    subst hq
    simp only [Node.size]
    have h2 := Nat.two_pow_pos k
    omega
  | Empty s ex ey =>
    intro x y _ q hq
    simp [Node.squares] at hq
  | Subdivided s tl tr bl br ihtl ihtr ihbl ihbr =>
    intro x y hwf q hq
    obtain ⟨⟨k, hk⟩, htl, htr, hbl, hbr, wtl, wtr, wbl, wbr⟩ := hwf
    have h1 : s = 2 ^ k * 2 := by rw [hk, pow_succ]
    simp only [Node.squares, List.mem_append] at hq
    simp only [Node.size]
    rcases hq with ((h | h) | h) | h
    · have hb := ihtl x y wtl q h
      rw [htl] at hb
      omega
    · have hb := ihtr (x + s / 2) y wtr q h
      rw [htr] at hb
      omega
    · have hb := ihbl x (y + s / 2) wbl q h
      rw [hbl] at hb
      omega
    · have hb := ihbr (x + s / 2) (y + s / 2) wbr q h
      rw [hbr] at hb
      omega

/-- The occupied squares of a well-formed tree are pairwise disjoint. -/
theorem squares_pairwise : ∀ (n : Node) (x y : Nat), n.WF x y →
    List.Pairwise SqDisjoint (n.squares x y) := by
  intro n
  induction n with
  | Leaf s => intro x y _; simp [Node.squares]
  | Empty s ex ey => intro x y _; simp [Node.squares]
  | Subdivided s tl tr bl br ihtl ihtr ihbl ihbr =>
    intro x y hwf
    obtain ⟨⟨k, hk⟩, htl, htr, hbl, hbr, wtl, wtr, wbl, wbr⟩ := hwf
    have bndtl := squares_bounds tl x y wtl
    have bndtr := squares_bounds tr (x + s / 2) y wtr
    have bndbl := squares_bounds bl x (y + s / 2) wbl
    have bndbr := squares_bounds br (x + s / 2) (y + s / 2) wbr
    simp only [Node.squares]
    rw [List.pairwise_append]
    refine ⟨?_, ihbr _ _ wbr, ?_⟩
    · rw [List.pairwise_append]
      refine ⟨?_, ihbl _ _ wbl, ?_⟩
      · rw [List.pairwise_append]
        refine ⟨ihtl _ _ wtl, ihtr _ _ wtr, ?_⟩
        intro a ha b hb
        have hA := bndtl a ha
        have hB := bndtr b hb
        unfold SqDisjoint
        omega
      · intro a ha b hb
        have hB := bndbl b hb
        rcases List.mem_append.mp ha with h | h
        · have hA := bndtl a h
          unfold SqDisjoint
          omega
        · have hA := bndtr a h
          unfold SqDisjoint
          omega
    · intro a ha b hb
      have hB := bndbr b hb
      rcases List.mem_append.mp ha with hrest | h
      · rcases List.mem_append.mp hrest with h | h
        · have hA := bndtl a h
          unfold SqDisjoint
          omega
        · have hA := bndtr a h
          unfold SqDisjoint
          omega
      · have hA := bndbl a h
        unfold SqDisjoint
        omega

/-- Unfolding equation for empty_alloc on an Empty node. -/
theorem empty_alloc_eq (size x y sprite_size : Nat) :
    (Node.Empty size x y).empty_alloc sprite_size =
      if sprite_size < size then
        match (Node.Empty (size / 2) x y).empty_alloc sprite_size with
        | none => none
        | some (allocation, top_left) =>
          some (allocation, .Subdivided size top_left
            (.Empty (size / 2) (x + size / 2) y)
            (.Empty (size / 2) x (y + size / 2))
            (.Empty (size / 2) (x + size / 2) (y + size / 2)))
      else if sprite_size = size then some ((x, y), .Leaf size)
      else none := by
  rw [Node.empty_alloc, dite_eq_ite]

/-- Unfolding equation for realloc on an Empty node. -/
theorem realloc_eq (size x y : Nat) (old : Node) :
    (Node.Empty size x y).realloc old =
      if old.size < size then
        match (Node.Empty (size / 2) x x).realloc old with
        | none => none
        | some top_left =>
          some (.Subdivided size top_left
            (.Empty (size / 2) (x + size / 2) y)
            (.Empty (size / 2) x (y + size / 2))
            (.Empty (size / 2) (x + size / 2) (y + size / 2)))
      else if old.size = size then some old
      else none := by
  rw [Node.realloc, dite_eq_ite]

/-- Allocating a power-of-two square inside an Empty node of equal or
larger power-of-two edge succeeds, places the square at the position of
the Empty node and produces a single occupied square there. -/
theorem empty_alloc_spec : ∀ (k j x y : Nat), j ≤ k →
    ∃ t, (Node.Empty (2 ^ k) x y).empty_alloc (2 ^ j) = some ((x, y), t) ∧
      t.size = 2 ^ k ∧ t.WF x y ∧ t.squares x y = [(x, y, 2 ^ j)] := by
  intro k
  induction k with
  | zero =>
    intro j x y hj
    have hj0 : j = 0 := by omega
    subst hj0
    simp only [pow_zero]
    rw [empty_alloc_eq, if_neg (lt_irrefl 1), if_pos rfl]
    exact ⟨.Leaf 1, rfl, rfl, ⟨0, by norm_num⟩, rfl⟩
  | succ k ih =>
    intro j x y hj
    have hhalf : 2 ^ (k + 1) / 2 = 2 ^ k := by
      rw [pow_succ]
      exact Nat.mul_div_cancel _ (by norm_num)
    by_cases hjk : j = k + 1
    · subst hjk
      rw [empty_alloc_eq, if_neg (lt_irrefl _), if_pos rfl]
      exact ⟨.Leaf (2 ^ (k + 1)), rfl, rfl, ⟨k + 1, rfl⟩, rfl⟩
    · have hjle : j ≤ k := by omega
      have hlt : 2 ^ j < 2 ^ (k + 1) :=
        (Nat.pow_lt_pow_iff_right (by norm_num)).mpr (by omega)
      obtain ⟨t, ht, hsize, hwf, hsq⟩ := ih j x y hjle
      rw [empty_alloc_eq, if_pos hlt, hhalf, ht]
      refine ⟨_, rfl, rfl, ?_, ?_⟩
      · exact ⟨⟨k, rfl⟩, by rw [hsize, hhalf], by simp [Node.size, hhalf],
          by simp [Node.size, hhalf], by simp [Node.size, hhalf], hwf,
          ⟨by rw [hhalf], rfl, Or.inr ⟨k, rfl⟩⟩,
          ⟨rfl, by rw [hhalf], Or.inr ⟨k, rfl⟩⟩,
          ⟨by rw [hhalf], by rw [hhalf], Or.inr ⟨k, rfl⟩⟩⟩
      · simp [Node.squares, hhalf, hsq]

/-- Re-embedding a well-formed old tree of power-of-two size into an Empty
node at the origin of equal or larger power-of-two edge succeeds and
preserves the occupied squares exactly. -/
theorem realloc_spec : ∀ (m : Nat) (old : Node), old.WF 0 0 →
    (∃ l, old.size = 2 ^ l) → old.size ≤ 2 ^ m →
    ∃ t, (Node.Empty (2 ^ m) 0 0).realloc old = some t ∧ t.size = 2 ^ m ∧
      t.WF 0 0 ∧ t.squares 0 0 = old.squares 0 0 := by
  intro m
  induction m with
  | zero =>
    intro old hwf hpow hle
    obtain ⟨l, hl⟩ := hpow
    simp only [pow_zero] at hle ⊢
    have hsz : old.size = 1 := by
      have := Nat.two_pow_pos l
      omega
    rw [realloc_eq, if_neg (by omega), if_pos hsz]
    exact ⟨old, rfl, hsz, hwf, rfl⟩
  | succ m ih =>
    intro old hwf hpow hle
    obtain ⟨l, hl⟩ := hpow
    have hhalf : 2 ^ (m + 1) / 2 = 2 ^ m := by
      rw [pow_succ]
      exact Nat.mul_div_cancel _ (by norm_num)
    by_cases heq : old.size = 2 ^ (m + 1)
    · rw [realloc_eq, if_neg (by omega), if_pos heq]
      exact ⟨old, rfl, heq, hwf, rfl⟩
    · have hlt : old.size < 2 ^ (m + 1) := by omega
      have hle2 : old.size ≤ 2 ^ m := by
        rw [hl] at hlt ⊢
        have hlm : l ≤ m := by
          by_contra hc
          have hml : m + 1 ≤ l := by omega
          have := (@Nat.pow_le_pow_iff_right 2 _ _ (by norm_num)).mpr hml
          omega
        exact (Nat.pow_le_pow_iff_right (by norm_num)).mpr hlm
      obtain ⟨t, ht, hsize, hwft, hsq⟩ := ih old hwf ⟨l, hl⟩ hle2
      rw [realloc_eq, if_pos hlt, hhalf, ht]
      refine ⟨_, rfl, rfl, ?_, ?_⟩
      · exact ⟨⟨m, rfl⟩, by rw [hsize, hhalf], by simp [Node.size, hhalf],
          by simp [Node.size, hhalf], by simp [Node.size, hhalf], hwft,
          ⟨by rw [hhalf], rfl, Or.inr ⟨m, rfl⟩⟩,
          ⟨rfl, by rw [hhalf], Or.inr ⟨m, rfl⟩⟩,
          ⟨by rw [hhalf], by rw [hhalf], Or.inr ⟨m, rfl⟩⟩⟩
      · simp [Node.squares, hhalf, hsq]

/-- Full case analysis of try_alloc on a well-formed node for a
power-of-two request: it never hits an unreachable branch, error results
satisfy the size side conditions alloc relies on, and success preserves
well-formedness and root size while inserting exactly one new occupied
square, whose position is returned. -/
theorem try_alloc_spec : ∀ (n : Node) (x y j : Nat), n.WF x y →
    (n.try_alloc (2 ^ j) = some (.error .Occupied) ∧ (∃ k, n.size = 2 ^ k) ∧
      2 ^ j ≤ n.size) ∨
    (n.try_alloc (2 ^ j) = some (.error .Undersized) ∧ (∃ k, n.size = 2 ^ k) ∧
      n.size < 2 ^ j) ∨
    (n.try_alloc (2 ^ j) = some (.error .EmptyUndersized) ∧ n.size < 2 ^ j ∧
      n.squares x y = []) ∨
    (∃ px py t, n.try_alloc (2 ^ j) = some (.ok ((px, py), t)) ∧ t.WF x y ∧
      t.size = n.size ∧
      List.Perm (t.squares x y) ((px, py, 2 ^ j) :: n.squares x y)) := by
  intro n
  induction n with
  | Leaf s =>
    intro x y j hwf
    by_cases h : 2 ^ j ≤ s
    · exact Or.inl ⟨by simp [Node.try_alloc, h], hwf, h⟩
    · refine Or.inr (Or.inl ⟨?_, hwf, ?_⟩)
      · simp [Node.try_alloc, h]
      · simp only [Node.size]
        omega
  | Empty s ex ey =>
    intro x y j hwf
    obtain ⟨rfl, rfl, hs⟩ := hwf
    by_cases h : 2 ^ j ≤ s
    · have hs2 : ∃ k, s = 2 ^ k := by
        rcases hs with h0 | hk
        · exfalso
          have := Nat.two_pow_pos j
          omega
        · exact hk
      obtain ⟨k, rfl⟩ := hs2
      have hjk : j ≤ k := (Nat.pow_le_pow_iff_right (by norm_num)).mp h
      obtain ⟨t, ht, hsize, hwft, hsq⟩ := empty_alloc_spec k j ex ey hjk
      refine Or.inr (Or.inr (Or.inr ⟨ex, ey, t, ?_, hwft, hsize, ?_⟩))
      · simp [Node.try_alloc, h, ht]
      · rw [hsq]
        simp [Node.squares]
    · refine Or.inr (Or.inr (Or.inl ⟨?_, ?_, by simp [Node.squares]⟩))
      · simp [Node.try_alloc, h]
      · simp only [Node.size]
        omega
  | Subdivided s tl tr bl br ihtl ihtr ihbl ihbr =>
    intro x y j hwf
    obtain ⟨⟨k, hk⟩, htl, htr, hbl, hbr, wtl, wtr, wbl, wbr⟩ := hwf
    subst hk
    have hhalf : 2 ^ (k + 1) / 2 = 2 ^ k := by
      rw [pow_succ]
      exact Nat.mul_div_cancel _ (by norm_num)
    rcases Nat.lt_trichotomy (2 ^ j) (2 ^ (k + 1)) with hlt | heq | hgt
    · -- strictly smaller request: the children loop runs
      have hj2k : 2 ^ j ≤ 2 ^ k := by
        have hjk : j < k + 1 := (Nat.pow_lt_pow_iff_right (by norm_num)).mp hlt
        exact (Nat.pow_le_pow_iff_right (by norm_num)).mpr (by omega)
      have case_tl : tl.try_alloc (2 ^ j) = some (.error .Occupied) ∨
          ∃ px py t, tl.try_alloc (2 ^ j) = some (.ok ((px, py), t)) ∧ t.WF x y ∧
            t.size = tl.size ∧
            List.Perm (t.squares x y) ((px, py, 2 ^ j) :: tl.squares x y) := by
        rcases ihtl x y j wtl with ⟨e, _, _⟩ | ⟨_, _, hc⟩ | ⟨_, hc, _⟩ | hok
        · exact Or.inl e
        · exfalso; omega
        · exfalso; omega
        · exact Or.inr hok
      have case_tr : tr.try_alloc (2 ^ j) = some (.error .Occupied) ∨
          ∃ px py t, tr.try_alloc (2 ^ j) = some (.ok ((px, py), t)) ∧
            t.WF (x + 2 ^ (k + 1) / 2) y ∧ t.size = tr.size ∧
            List.Perm (t.squares (x + 2 ^ (k + 1) / 2) y)
              ((px, py, 2 ^ j) :: tr.squares (x + 2 ^ (k + 1) / 2) y) := by
        rcases ihtr (x + 2 ^ (k + 1) / 2) y j wtr with
            ⟨e, _, _⟩ | ⟨_, _, hc⟩ | ⟨_, hc, _⟩ | hok
        · exact Or.inl e
        · exfalso; omega
        · exfalso; omega
        · exact Or.inr hok
      have case_bl : bl.try_alloc (2 ^ j) = some (.error .Occupied) ∨
          ∃ px py t, bl.try_alloc (2 ^ j) = some (.ok ((px, py), t)) ∧
            t.WF x (y + 2 ^ (k + 1) / 2) ∧ t.size = bl.size ∧
            List.Perm (t.squares x (y + 2 ^ (k + 1) / 2))
              ((px, py, 2 ^ j) :: bl.squares x (y + 2 ^ (k + 1) / 2)) := by
        rcases ihbl x (y + 2 ^ (k + 1) / 2) j wbl with
            ⟨e, _, _⟩ | ⟨_, _, hc⟩ | ⟨_, hc, _⟩ | hok
        · exact Or.inl e
        · exfalso; omega
        · exfalso; omega
        · exact Or.inr hok
      have case_br : br.try_alloc (2 ^ j) = some (.error .Occupied) ∨
          ∃ px py t, br.try_alloc (2 ^ j) = some (.ok ((px, py), t)) ∧
            t.WF (x + 2 ^ (k + 1) / 2) (y + 2 ^ (k + 1) / 2) ∧ t.size = br.size ∧
            List.Perm (t.squares (x + 2 ^ (k + 1) / 2) (y + 2 ^ (k + 1) / 2))
              ((px, py, 2 ^ j) :: br.squares (x + 2 ^ (k + 1) / 2) (y + 2 ^ (k + 1) / 2)) := by
        rcases ihbr (x + 2 ^ (k + 1) / 2) (y + 2 ^ (k + 1) / 2) j wbr with
            ⟨e, _, _⟩ | ⟨_, _, hc⟩ | ⟨_, hc, _⟩ | hok
        · exact Or.inl e
        · exfalso; omega
        · exfalso; omega
        · exact Or.inr hok
      rcases case_tl with e1 | ⟨px, py, t, e1, hwft, hszt, hperm⟩
      · rcases case_tr with e2 | ⟨px, py, t, e2, hwft, hszt, hperm⟩
        · rcases case_bl with e3 | ⟨px, py, t, e3, hwft, hszt, hperm⟩
          · rcases case_br with e4 | ⟨px, py, t, e4, hwft, hszt, hperm⟩
            · -- every child reports Occupied
              refine Or.inl ⟨?_, ⟨k + 1, rfl⟩, ?_⟩
              · simp [Node.try_alloc, hlt, e1, e2, e3, e4]
              · simp only [Node.size]
                omega
            · -- success in bottom_right
              refine Or.inr (Or.inr (Or.inr ⟨px, py,
                .Subdivided (2 ^ (k + 1)) tl tr bl t, ?_,
                ⟨⟨k, rfl⟩, htl, htr, hbl, by rw [hszt, hbr], wtl, wtr, wbl, hwft⟩,
                rfl, ?_⟩))
              · simp [Node.try_alloc, hlt, e1, e2, e3, e4]
              · simp only [Node.squares]
                exact (List.Perm.append_left _ hperm).trans List.perm_middle
          · -- success in bottom_left
            refine Or.inr (Or.inr (Or.inr ⟨px, py,
              .Subdivided (2 ^ (k + 1)) tl tr t br, ?_,
              ⟨⟨k, rfl⟩, htl, htr, by rw [hszt, hbl], hbr, wtl, wtr, hwft, wbr⟩,
              rfl, ?_⟩))
            · simp [Node.try_alloc, hlt, e1, e2, e3]
            · simp only [Node.squares]
              exact ((List.Perm.append_left _ hperm).trans List.perm_middle).append_right _
        · -- success in top_right
          refine Or.inr (Or.inr (Or.inr ⟨px, py,
            .Subdivided (2 ^ (k + 1)) tl t bl br, ?_,
            ⟨⟨k, rfl⟩, htl, by rw [hszt, htr], hbl, hbr, wtl, hwft, wbl, wbr⟩,
            rfl, ?_⟩))
          · simp [Node.try_alloc, hlt, e1, e2]
          · simp only [Node.squares]
            exact (((List.Perm.append_left _ hperm).trans
              List.perm_middle).append_right _).append_right _
      · -- success in top_left
        refine Or.inr (Or.inr (Or.inr ⟨px, py,
          .Subdivided (2 ^ (k + 1)) t tr bl br, ?_,
          ⟨⟨k, rfl⟩, by rw [hszt, htl], htr, hbl, hbr, hwft, wtr, wbl, wbr⟩,
          rfl, ?_⟩))
        · simp [Node.try_alloc, hlt, e1]
        · simp only [Node.squares]
          exact ((hperm.append_right _).append_right _).append_right _
    · -- request of exactly the node size: occupied
      refine Or.inl ⟨?_, ⟨k + 1, rfl⟩, ?_⟩
      · have h1 : ¬ (2 ^ j < 2 ^ (k + 1)) := by omega
        simp [Node.try_alloc, h1, heq]
      · simp only [Node.size]
        omega
    · -- request larger than the node: undersized
      refine Or.inr (Or.inl ⟨?_, ⟨k + 1, rfl⟩, ?_⟩)
      · have h1 : ¬ (2 ^ j < 2 ^ (k + 1)) := by omega
        have h2 : ¬ (2 ^ j = 2 ^ (k + 1)) := by omega
        simp [Node.try_alloc, h1, h2]
      · simp only [Node.size]
        omega

/-- Full specification of alloc on a root that is well-formed at the
origin: it never panics, it returns the region (px, py, px + w, py + h),
the new tree is well-formed at the origin, the root size does not shrink,
the requested extent fits in the normalized square, and the new tree
carries exactly one new occupied square of edge next_power_of_two
(max w h) at (px, py) in addition to the old ones. -/
theorem alloc_spec (t : Node) (w h : Nat) (hwf : t.WF 0 0) :
    ∃ px py t2, t.alloc w h = some (⟨px, py, px + w, py + h⟩, t2) ∧
      t2.WF 0 0 ∧ t.size ≤ t2.size ∧
      w ≤ next_power_of_two (max w h) ∧ h ≤ next_power_of_two (max w h) ∧
      List.Perm (t2.squares 0 0)
        ((px, py, next_power_of_two (max w h)) :: t.squares 0 0) := by
  have hnpt : next_power_of_two (max w h) = 2 ^ Nat.clog 2 (max w h) := rfl
  set j := Nat.clog 2 (max w h) with hjdef
  have hw : w ≤ 2 ^ j := le_trans (le_max_left w h) (Nat.le_pow_clog (by norm_num) _)
  have hh : h ≤ 2 ^ j := le_trans (le_max_right w h) (Nat.le_pow_clog (by norm_num) _)
  rcases try_alloc_spec t 0 0 j hwf with ⟨he, ⟨k, hk⟩, hle⟩ | ⟨he, ⟨k, hk⟩, hlt⟩ |
      ⟨he, hlt, hsq⟩ | ⟨px, py, t2, he, hwf2, hsz2, hperm⟩
  · -- Occupied at the root: grow to twice the size, allocate in top_right
    have hjk : j ≤ k := by
      rw [hk] at hle
      exact (Nat.pow_le_pow_iff_right (by norm_num)).mp hle
    obtain ⟨tr2, htr2, htr2size, htr2wf, htr2sq⟩ := empty_alloc_spec k j (2 ^ k) 0 hjk
    have hdiv : 2 ^ k * 2 / 2 = 2 ^ k := Nat.mul_div_cancel _ (by norm_num)
    refine ⟨2 ^ k, 0, .Subdivided (2 ^ k * 2) t tr2
      (.Empty (2 ^ k) 0 (2 ^ k)) (.Empty (2 ^ k) (2 ^ k) (2 ^ k)), ?_, ?_, ?_, hw, hh, ?_⟩
    · simp only [Node.alloc, hnpt, he]
      rw [hk, hdiv, htr2]
    · exact ⟨⟨k, (pow_succ 2 k).symm⟩, by simp [hdiv, hk], by simp [hdiv, htr2size],
        by simp [Node.size, hdiv], by simp [Node.size, hdiv], hwf,
        by simpa [hdiv] using htr2wf,
        ⟨rfl, by simp [hdiv], Or.inr ⟨k, rfl⟩⟩,
        ⟨by simp [hdiv], by simp [hdiv], Or.inr ⟨k, rfl⟩⟩⟩
    · exact hk.le.trans (by omega : 2 ^ k ≤ 2 ^ k * 2)
    · simp only [Node.squares, hdiv, Nat.zero_add, List.append_nil]
      rw [htr2sq]
      exact List.perm_append_singleton _ _
  · -- Undersized at the root: re-embed the whole tree next to a new leaf
    have hlej : t.size ≤ 2 ^ j := le_of_lt hlt
    obtain ⟨tl2, htl2, htl2size, htl2wf, htl2sq⟩ :=
      realloc_spec j t hwf ⟨k, hk⟩ hlej
    have hdiv : 2 ^ j * 2 / 2 = 2 ^ j := Nat.mul_div_cancel _ (by norm_num)
    refine ⟨2 ^ j, 0, .Subdivided (2 ^ j * 2) tl2 (Node.leaf (2 ^ j))
      (.Empty (2 ^ j) 0 (2 ^ j)) (.Empty (2 ^ j) (2 ^ j) (2 ^ j)), ?_, ?_, ?_, hw, hh, ?_⟩
    · simp only [Node.alloc, hnpt, he]
      rw [hdiv, htl2]
    · exact ⟨⟨j, (pow_succ 2 j).symm⟩, by simp [hdiv, htl2size],
        by simp [Node.leaf, Node.size, hdiv], by simp [Node.size, hdiv],
        by simp [Node.size, hdiv], htl2wf, ⟨j, rfl⟩,
        ⟨rfl, by simp [hdiv], Or.inr ⟨j, rfl⟩⟩,
        ⟨by simp [hdiv], by simp [hdiv], Or.inr ⟨j, rfl⟩⟩⟩
    · exact (le_of_lt (hk ▸ hlt : t.size < 2 ^ j)).trans (by omega : 2 ^ j ≤ 2 ^ j * 2)
    · simp only [Node.squares, Node.leaf, hdiv, Nat.zero_add, List.append_nil]
      rw [htl2sq]
      exact List.perm_append_singleton _ _
  · -- EmptyUndersized: the whole tree is an empty too small, replace by a leaf
    refine ⟨0, 0, Node.leaf (2 ^ j), ?_, ⟨j, rfl⟩, ?_, hw, hh, ?_⟩
    · simp [Node.alloc, hnpt, he]
    · exact le_of_lt hlt
    · simp only [Node.leaf, Node.squares]
      rw [hsq]
      exact List.Perm.refl _
  · -- try_alloc succeeded in place
    refine ⟨px, py, t2, ?_, hwf2, hsz2.symm.le, hw, hh, hperm⟩
    simp [Node.alloc, hnpt, he]

/-- A region is covered by a square given as an (x, y, edge) triple. -/
def Covers (r : TextureRegion Nat) (q : Nat × Nat × Nat) : Prop :=
  q.1 ≤ r.left ∧ r.right ≤ q.1 + q.2.2 ∧ q.2.1 ≤ r.top ∧ r.bottom ≤ q.2.1 + q.2.2

theorem forall₂_mem_left {α β : Type} {C : α → β → Prop} :
    ∀ {l : List α} {l2 : List β}, List.Forall₂ C l l2 → ∀ a ∈ l, ∃ b ∈ l2, C a b := by
  intro l l2 hf
  induction hf with
  | nil =>
    intro a ha
    simp at ha
  | cons hc htail ih =>
    intro a ha
    rcases List.mem_cons.mp ha with rfl | hmem
    · exact ⟨_, List.mem_cons_self _ _, hc⟩
    · obtain ⟨b, hb, hcb⟩ := ih a hmem
      exact ⟨b, List.mem_cons_of_mem _ hb, hcb⟩

theorem pairwise_of_forall₂ {α β : Type} (C : α → β → Prop) (S : β → β → Prop)
    (R : α → α → Prop) (hCS : ∀ a b a2 b2, C a b → C a2 b2 → S b b2 → R a a2) :
    ∀ {l : List α} {l2 : List β}, List.Forall₂ C l l2 → List.Pairwise S l2 →
      List.Pairwise R l := by
  intro l l2 hf
  induction hf with
  | nil =>
    intro _
    exact List.Pairwise.nil
  | cons hc htail ih =>
    intro hp
    rcases List.pairwise_cons.mp hp with ⟨hhead, htailp⟩
    refine List.Pairwise.cons ?_ (ih htailp)
    intro a2 ha2
    obtain ⟨b2, hb2, hc2⟩ := forall₂_mem_left htail a2 ha2
    exact hCS _ _ _ _ hc hc2 (hhead b2 hb2)

/-- Regions covered by disjoint squares are disjoint. -/
theorem covers_disjoint {r1 r2 : TextureRegion Nat} {q1 q2 : Nat × Nat × Nat}
    (h1 : Covers r1 q1) (h2 : Covers r2 q2) (hd : SqDisjoint q1 q2) :
    RegionDisjoint r1 r2 := by
  intro px py hmem
  rcases hmem with ⟨⟨a1, a2, a3, a4⟩, b1, b2, b3, b4⟩
  unfold Covers at h1 h2
  unfold SqDisjoint at hd
  omega

/-- Running a request sequence on a well-formed root never panics, keeps
the root well-formed, and each returned region is covered by an allocated
square; the allocated squares together with the squares already present
survive (as a sub-multiset) into the final tree. -/
theorem runAllocs_spec : ∀ (reqs : List (Nat × Nat)) (t : Node), t.WF 0 0 →
    ∃ rs tf, runAllocs t reqs = some (rs, tf) ∧ tf.WF 0 0 ∧
      ∃ sqs, List.Forall₂ Covers rs sqs ∧
        List.Subperm (sqs ++ t.squares 0 0) (tf.squares 0 0) := by
  intro reqs
  induction reqs with
  | nil =>
    intro t hwf
    exact ⟨[], t, rfl, hwf, [], List.Forall₂.nil, List.Subperm.refl _⟩
  | cons req rest ih =>
    intro t hwf
    obtain ⟨w, v⟩ := req
    obtain ⟨px, py, t2, halloc, hwf2, _, hwr, hvr, hperm⟩ := alloc_spec t w v hwf
    obtain ⟨rs, tf, hrun, hwft, sqs, hcov, hsub⟩ := ih t2 hwf2
    refine ⟨⟨px, py, px + w, py + v⟩ :: rs, tf, ?_, hwft,
      (px, py, next_power_of_two (max w v)) :: sqs, ?_, ?_⟩
    · simp [runAllocs, halloc, hrun]
    · refine List.Forall₂.cons ?_ hcov
      simp only [Covers]
      omega
    · exact ((List.perm_middle.symm.trans
        (List.Perm.append_left sqs hperm.symm)).subperm).trans hsub

/-- C1: for every sequence of alloc calls on a fresh packer root, no call
panics, the returned regions are pairwise disjoint and every returned
region lies within [0, root size) squared for the final root size. -/
theorem atlas_alloc_disjoint (reqs : List (Nat × Nat)) :
    ∃ rs tf, runAllocs Node.empty reqs = some (rs, tf) ∧
      List.Pairwise RegionDisjoint rs ∧
      ∀ r ∈ rs, r.right ≤ tf.size ∧ r.bottom ≤ tf.size := by
  have hwf : Node.empty.WF 0 0 := ⟨rfl, rfl, Or.inl rfl⟩
  obtain ⟨rs, tf, hrun, hwft, sqs, hcov, hsub⟩ := runAllocs_spec reqs Node.empty hwf
  have hempty : Node.empty.squares 0 0 = [] := rfl
  rw [hempty, List.append_nil] at hsub
  refine ⟨rs, tf, hrun, ?_, ?_⟩
  · have hpair_tf := squares_pairwise tf 0 0 hwft
    have hpair_sqs : List.Pairwise SqDisjoint sqs := by
      obtain ⟨l, hperm, hsl⟩ := hsub
      exact ((List.Pairwise.sublist hsl hpair_tf).perm hperm
        (fun hab => sqDisjoint_symm hab))
    exact pairwise_of_forall₂ Covers SqDisjoint RegionDisjoint
      (fun a b a2 b2 hab ha2b2 hS => covers_disjoint hab ha2b2 hS) hcov hpair_sqs
  · intro r hr
    obtain ⟨q, hq, hcq⟩ := forall₂_mem_left hcov r hr
    have hq_tf : q ∈ tf.squares 0 0 := hsub.subset hq
    have hbnd := squares_bounds tf 0 0 hwft q hq_tf
    unfold Covers at hcq
    omega

/-- For any old tree, realloc into an Empty node at the origin coincides
with the corrected variant: with x = 0 the mis-filled y coordinate of the
top_left child is 0, which is also the correct value. -/
theorem realloc_eq_fixed_at_origin (es : Nat) : ∀ old : Node,
    (Node.Empty es 0 0).realloc old = (Node.Empty es 0 0).realloc_fixed old := by
  induction es using Nat.strong_induction_on with
  | _ es ih =>
    intro old
    unfold Node.realloc Node.realloc_fixed
    by_cases h : old.size < es
    · rw [dif_pos h, dif_pos h, ih (es / 2) (by omega)]
    · rw [dif_neg h, dif_neg h]

/-- C10: the mis-filled y coordinate in realloc is harmless. Every realloc
performed by alloc happens at an Empty node with x = 0 and y = 0, where
the source variant and the corrected variant produce the same tree, and
alloc is behaviorally equal to the corrected alloc_fixed on every tree and
request. -/
theorem alloc_eq_alloc_fixed :
    (∀ (es : Nat) (old : Node),
      (Node.Empty es 0 0).realloc old = (Node.Empty es 0 0).realloc_fixed old) ∧
    (∀ (n : Node) (width height : Nat),
      n.alloc width height = n.alloc_fixed width height) := by
  refine ⟨realloc_eq_fixed_at_origin, fun n width height => ?_⟩
  cases htry : n.try_alloc (next_power_of_two (max width height)) with
  | none => simp [Node.alloc, Node.alloc_fixed, htry]
  | some r =>
    cases r with
    | ok v => simp [Node.alloc, Node.alloc_fixed, htry]
    | error e =>
      cases e <;>
        simp [Node.alloc, Node.alloc_fixed, htry, realloc_eq_fixed_at_origin]

/-! ## Colors, batches, render list and drawing context
(src/graphics/renderer.rs, src/graphics/rectangle.rs, src/graphics.rs,
src/graphics/context.rs) -/

/-- Struct Color of renderer.rs. -/
structure Color where
  r : ℝ
  g : ℝ
  b : ℝ
  a : ℝ

/-- Color::default: opaque black. -/
def Color.default : Color := ⟨0, 0, 0, 1⟩

/-- Vertex of the rectangle pipeline, struct Vertex of rectangle.rs; the
[f32; 4] color array is modelled by the Color record. -/
structure RectVertex where
  position : ℝ × ℝ
  color : Color

/-- Struct RectangleDrawInfo of rectangle.rs. -/
structure RectangleDrawInfo where
  x : ℝ
  y : ℝ
  width : ℝ
  height : ℝ
  color : Color
  transform : Transform

/-- Struct RectangleBatch of rectangle.rs. -/
structure RectangleBatch where
  vertices : List RectVertex
  indices : List Nat

/-- RectangleBatch::add: six indices over the current vertex count, then
the four transformed corner vertices sharing the color. -/
noncomputable def RectangleBatch.add (b : RectangleBatch)
    (draw_info : RectangleDrawInfo) : RectangleBatch :=
  let n := b.vertices.length
  { vertices := b.vertices ++
      [⟨draw_info.transform.apply draw_info.x draw_info.y, draw_info.color⟩,
       ⟨draw_info.transform.apply (draw_info.x + draw_info.width) draw_info.y,
         draw_info.color⟩,
       ⟨draw_info.transform.apply draw_info.x (draw_info.y + draw_info.height),
         draw_info.color⟩,
       ⟨draw_info.transform.apply (draw_info.x + draw_info.width)
         (draw_info.y + draw_info.height), draw_info.color⟩],
    indices := b.indices ++ [n, n + 2, n + 1, n + 3, n + 1, n + 2] }

/-- RectangleBatch::new: an empty batch extended by the draw. -/
noncomputable def RectangleBatch.new (draw_info : RectangleDrawInfo) : RectangleBatch :=
  RectangleBatch.add ⟨[], []⟩ draw_info

/-- GPU texture as seen by the sprite registry: an identity standing for
Arc pointer identity, plus the pixel dimensions of the texture. -/
structure Texture where
  tid : Nat
  width : Nat
  height : Nat
deriving DecidableEq

/-- Enum Sprite of sprite.rs (named SpriteEntry here to avoid clashing
with the public Sprite handle): a standalone texture or a region of the
shared sheet. -/
inductive SpriteEntry where
  | Texture (texture : Texture)
  | Sheet (region : TextureRegion Nat)

/-- The registry part of struct SpriteRenderer of sprite.rs. -/
structure SpriteRenderer where
  sprites : List SpriteEntry
  spritesheet : Texture

/-- Struct SpriteDrawInfo of sprite.rs. -/
structure SpriteDrawInfo where
  handle : Nat
  x : ℝ
  y : ℝ
  transform : Transform

/-- Vertex of the sprite pipeline of sprite.rs. -/
structure SpriteVertex where
  position : ℝ × ℝ
  tex_coords : ℝ × ℝ

/-- Struct SpriteBatch of sprite.rs. -/
structure SpriteBatch where
  texture : Texture
  vertices : List SpriteVertex
  indices : List Nat

/-- SpriteBatch::add: resolve extent and texture region of the sprite
entry, then append six indices and four transformed vertices. Indexing
past the registry (a panic in the source) is none. -/
noncomputable def SpriteBatch.add (b : SpriteBatch) (draw_info : SpriteDrawInfo)
    (r : SpriteRenderer) : Option SpriteBatch :=
  match r.sprites[draw_info.handle]? with
  | none => none
  | some sprite =>
    let whr : ℝ × ℝ × TextureRegion ℝ :=
      match sprite with
      | .Texture texture =>
        ((texture.width : ℝ), (texture.height : ℝ), ⟨0, 0, 1, 1⟩)
      | .Sheet region =>
        (((region.right - region.left : Nat) : ℝ),
         ((region.bottom - region.top : Nat) : ℝ),
         ⟨(region.left : ℝ) / (r.spritesheet.width : ℝ),
          (region.top : ℝ) / (r.spritesheet.height : ℝ),
          (region.right : ℝ) / (r.spritesheet.width : ℝ),
          (region.bottom : ℝ) / (r.spritesheet.height : ℝ)⟩)
    let width := whr.1
    let height := whr.2.1
    let region := whr.2.2
    let n := b.vertices.length
    some { b with
      vertices := b.vertices ++
        [⟨draw_info.transform.apply draw_info.x draw_info.y,
           (region.left, region.top)⟩,
         ⟨draw_info.transform.apply (draw_info.x + width) draw_info.y,
           (region.right, region.top)⟩,
         ⟨draw_info.transform.apply draw_info.x (draw_info.y + height),
           (region.left, region.bottom)⟩,
         ⟨draw_info.transform.apply (draw_info.x + width) (draw_info.y + height),
           (region.right, region.bottom)⟩],
      indices := b.indices ++ [n, n + 2, n + 1, n + 3, n + 1, n + 2] }

/-- The texture a sprite draw resolves to: the standalone texture for a
Texture entry, the shared sheet for a Sheet entry. This is the match at
the head of both SpriteBatch::new and SpriteBatch::try_add. -/
def resolvedTexture (r : SpriteRenderer) (handle : Nat) : Option Texture :=
  match r.sprites[handle]? with
  | none => none
  | some (.Texture texture) => some texture
  | some (.Sheet _) => some r.spritesheet

/-- SpriteBatch::try_add: when the resolved texture matches the binding of
the batch (Arc pointer identity modelled by tid) the sprite is appended to
self (ok with the extended batch); otherwise self is untouched and a new
batch with the resolved binding containing the new sprite is the error. -/
noncomputable def SpriteBatch.try_add (b : SpriteBatch) (draw_info : SpriteDrawInfo)
    (r : SpriteRenderer) : Option (Except SpriteBatch SpriteBatch) :=
  match resolvedTexture r draw_info.handle with
  | none => none
  | some texture =>
    if texture.tid = b.texture.tid then
      match b.add draw_info r with
      | none => none
      | some b2 => some (.ok b2)
    else
      match SpriteBatch.add ⟨texture, [], []⟩ draw_info r with
      | none => none
      | some nb => some (.error nb)

/-- SpriteBatch::new: an empty batch bound to the resolved texture,
extended by the draw. -/
noncomputable def SpriteBatch.new (draw_info : SpriteDrawInfo) (r : SpriteRenderer) :
    Option SpriteBatch :=
  match resolvedTexture r draw_info.handle with
  | none => none
  | some texture => SpriteBatch.add ⟨texture, [], []⟩ draw_info r

/-- Enum RenderCommand of renderer.rs. -/
inductive RenderCommand where
  | RectangleBatch (batch : RectangleBatch)
  | SpriteBatch (batch : SpriteBatch)

/-- Struct RenderList of renderer.rs. -/
structure RenderList where
  clear_color : Color
  commands : List RenderCommand

/-- Struct DrawState of context.rs. -/
structure DrawState where
  color : Color
  transform : Transform

/-- DrawState::default. -/
noncomputable def DrawState.default : DrawState := ⟨Color.default, Transform.identity⟩

/-- Struct Context of context.rs; of the renderer field only the sprite
registry is modelled, the other renderer fields are GPU handles. -/
structure Context where
  sprite_renderer : SpriteRenderer
  render_list : RenderList
  draw_state : DrawState

/-- Public reset of graphics.rs. -/
noncomputable def reset (ctx : Context) : Context :=
  { ctx with draw_state := DrawState.default }

/-- Public set_color of graphics.rs. -/
def set_color (r g b a : ℝ) (ctx : Context) : Context :=
  { ctx with draw_state := { ctx.draw_state with color := ⟨r, g, b, a⟩ } }

/-- Public clear of graphics.rs: empty the commands, set the clear color
to the current draw color. -/
def clear (ctx : Context) : Context :=
  { ctx with render_list :=
      { clear_color := ctx.draw_state.color, commands := [] } }

/-- Public rectangle of graphics.rs: extend the last command when it is a
RectangleBatch, else push a new one. -/
noncomputable def rectangle (x y width height : ℝ) (ctx : Context) : Context :=
  let draw_info : RectangleDrawInfo :=
    ⟨x, y, width, height, ctx.draw_state.color, ctx.draw_state.transform⟩
  match ctx.render_list.commands.getLast? with
  | some (.RectangleBatch batch) =>
    { ctx with render_list := { ctx.render_list with
        commands := ctx.render_list.commands.dropLast ++
          [.RectangleBatch (batch.add draw_info)] } }
  | _ =>
    { ctx with render_list := { ctx.render_list with
        commands := ctx.render_list.commands ++
          [.RectangleBatch (RectangleBatch.new draw_info)] } }

/-- A sequence of rectangle calls, applied in order. -/
noncomputable def rectCalls (calls : List (ℝ × ℝ × ℝ × ℝ)) (ctx : Context) : Context :=
  calls.foldl (fun c p => rectangle p.1 p.2.1 p.2.2.1 p.2.2.2 c) ctx

theorem rectangleBatch_add_lengths (b : RectangleBatch) (i : RectangleDrawInfo) :
    (b.add i).vertices.length = b.vertices.length + 4 ∧
    (b.add i).indices.length = b.indices.length + 6 := by
  simp [RectangleBatch.add]

/-- While the render list is a single rectangle batch, every further
rectangle call keeps it a single batch and grows it by one quad. -/
theorem rectCalls_singleton : ∀ (calls : List (ℝ × ℝ × ℝ × ℝ)) (ctx : Context)
    (b : RectangleBatch), ctx.render_list.commands = [.RectangleBatch b] →
    ∃ b2, (rectCalls calls ctx).render_list.commands = [.RectangleBatch b2] ∧
      b2.vertices.length = b.vertices.length + 4 * calls.length ∧
      b2.indices.length = b.indices.length + 6 * calls.length := by
  intro calls
  induction calls with
  | nil =>
    intro ctx b hb
    exact ⟨b, by simpa [rectCalls] using hb, by simp, by simp⟩
  | cons c rest ih =>
    intro ctx b hb
    have hstep : (rectangle c.1 c.2.1 c.2.2.1 c.2.2.2 ctx).render_list.commands =
        [.RectangleBatch (b.add ⟨c.1, c.2.1, c.2.2.1, c.2.2.2,
          ctx.draw_state.color, ctx.draw_state.transform⟩)] := by
      simp [rectangle, hb]
    obtain ⟨b2, h1, h2, h3⟩ := ih _ _ hstep
    obtain ⟨hv, hi⟩ := rectangleBatch_add_lengths b
      ⟨c.1, c.2.1, c.2.2.1, c.2.2.2, ctx.draw_state.color, ctx.draw_state.transform⟩
    refine ⟨b2, ?_, ?_, ?_⟩
    · simpa [rectCalls] using h1
    · simp only [List.length_cons]
      omega
    · simp only [List.length_cons]
      omega

/-- C4: starting from an empty render list, any nonempty sequence of N
rectangle calls with no intervening sprite draw produces exactly one
RectangleBatch, holding 4 N vertices and 6 N indices; for three calls, 12
vertices and 18 indices. -/
theorem rectangle_coalesce (calls : List (ℝ × ℝ × ℝ × ℝ)) (ctx : Context)
    (hempty : ctx.render_list.commands = []) (hne : calls ≠ []) :
    ∃ b, (rectCalls calls ctx).render_list.commands = [.RectangleBatch b] ∧
      b.vertices.length = 4 * calls.length ∧
      b.indices.length = 6 * calls.length := by
  cases calls with
  | nil => exact absurd rfl hne
  | cons c rest =>
    have hstep : (rectangle c.1 c.2.1 c.2.2.1 c.2.2.2 ctx).render_list.commands =
        [.RectangleBatch (RectangleBatch.new ⟨c.1, c.2.1, c.2.2.1, c.2.2.2,
          ctx.draw_state.color, ctx.draw_state.transform⟩)] := by
      simp [rectangle, hempty]
    obtain ⟨b2, h1, h2, h3⟩ := rectCalls_singleton rest _ _ hstep
    have hnew : ∀ i : RectangleDrawInfo, (RectangleBatch.new i).vertices.length = 4 ∧
        (RectangleBatch.new i).indices.length = 6 := by
      intro i
      simp [RectangleBatch.new, RectangleBatch.add]
    obtain ⟨hv, hi⟩ := hnew ⟨c.1, c.2.1, c.2.2.1, c.2.2.2,
      ctx.draw_state.color, ctx.draw_state.transform⟩
    refine ⟨b2, by simpa [rectCalls] using h1, ?_, ?_⟩
    · simp only [List.length_cons]
      omega
    · simp only [List.length_cons]
      omega

/-- A concrete context used to instantiate the drawing theorems. -/
noncomputable def ctx0 : Context :=
  ⟨⟨[], ⟨0, 1, 1⟩⟩, ⟨Color.default, []⟩, DrawState.default⟩

/-- A concrete list of three rectangle calls. -/
noncomputable def calls0 : List (ℝ × ℝ × ℝ × ℝ) :=
  [(0, 0, 10, 10), (1, 1, 5, 5), (2, 2, 3, 3)]

/-- Witness for C4: three concrete rectangle calls on a fresh context. -/
theorem rectangle_coalesce_witness :
    ∃ b, (rectCalls calls0 ctx0).render_list.commands = [.RectangleBatch b] ∧
      b.vertices.length = 4 * calls0.length ∧
      b.indices.length = 6 * calls0.length :=
  rectangle_coalesce calls0 ctx0 rfl (by simp [calls0])

/-- C6: after set_color(r,g,b,a); clear(); rectangle(x,y,w,h), the render
list holds exactly one rectangle batch and its clear color is the set
color; everything recorded before the clear is gone; clear leaves the
draw state, in particular the transform, untouched. -/
theorem clear_semantics (ctx : Context) (r g b a x y w h : ℝ) :
    ∃ batch,
      (rectangle x y w h (clear (set_color r g b a ctx))).render_list.commands =
        [.RectangleBatch batch] ∧
      (rectangle x y w h (clear (set_color r g b a ctx))).render_list.clear_color =
        ⟨r, g, b, a⟩ ∧
      (clear (set_color r g b a ctx)).draw_state =
        { ctx.draw_state with color := ⟨r, g, b, a⟩ } ∧
      (clear (set_color r g b a ctx)).draw_state.transform =
        ctx.draw_state.transform := by
  refine ⟨RectangleBatch.new ⟨x, y, w, h, ⟨r, g, b, a⟩, ctx.draw_state.transform⟩,
    ?_, ?_, rfl, rfl⟩
  · simp [rectangle, clear, set_color]
  · simp [rectangle, clear, set_color]

/-- C7: reset restores the draw state defaults, color black (0,0,0,1) and
identity transform, and leaves the render list untouched. -/
theorem reset_spec (ctx : Context) :
    (reset ctx).draw_state.color = Color.default ∧
    Color.default = ⟨0, 0, 0, 1⟩ ∧
    (reset ctx).draw_state.transform = Transform.identity ∧
    (reset ctx).render_list = ctx.render_list :=
  ⟨rfl, rfl, rfl, rfl⟩

/-- SpriteBatch::add on a valid handle always succeeds, keeps the binding
of the batch and appends exactly four vertices and six indices. -/
theorem sprite_add_spec (b : SpriteBatch) (info : SpriteDrawInfo)
    (r : SpriteRenderer) (hh : info.handle < r.sprites.length) :
    ∃ b2, b.add info r = some b2 ∧ b2.texture = b.texture ∧
      ∃ nv ni, nv.length = 4 ∧ ni.length = 6 ∧
        b2.vertices = b.vertices ++ nv ∧ b2.indices = b.indices ++ ni := by
  have hs : r.sprites[info.handle]? = some r.sprites[info.handle] :=
    List.getElem?_eq_getElem hh
  cases hsv : r.sprites[info.handle] with
  | Texture tex =>
    rw [hsv] at hs
    simp only [SpriteBatch.add, hs]
    refine ⟨_, rfl, rfl, _, _, ?_, ?_, rfl, rfl⟩ <;> rfl
  | Sheet reg =>
    rw [hsv] at hs
    simp only [SpriteBatch.add, hs]
    refine ⟨_, rfl, rfl, _, _, ?_, ?_, rfl, rfl⟩ <;> rfl

/-- C5: try_add resolves the effective texture of the draw (the standalone
texture for a Texture entry, the shared sheet for a Sheet entry); when it
equals the binding of the batch, the four vertices and six indices of the
sprite are appended to it and ok is returned; otherwise an error carrying
a fresh batch bound to the resolved texture and already containing exactly
the new sprite is returned, the original batch being unchanged. -/
theorem try_add_spec (b : SpriteBatch) (info : SpriteDrawInfo)
    (r : SpriteRenderer) (hh : info.handle < r.sprites.length) :
    ∃ texture, resolvedTexture r info.handle = some texture ∧
      (texture.tid = b.texture.tid →
        ∃ b2, b.try_add info r = some (.ok b2) ∧ b2.texture = b.texture ∧
          b.add info r = some b2 ∧
          ∃ nv ni, nv.length = 4 ∧ ni.length = 6 ∧
            b2.vertices = b.vertices ++ nv ∧ b2.indices = b.indices ++ ni) ∧
      (texture.tid ≠ b.texture.tid →
        ∃ nb, b.try_add info r = some (.error nb) ∧ nb.texture = texture ∧
          SpriteBatch.add ⟨texture, [], []⟩ info r = some nb ∧
          nb.vertices.length = 4 ∧ nb.indices.length = 6) := by
  have hs : r.sprites[info.handle]? = some r.sprites[info.handle] :=
    List.getElem?_eq_getElem hh
  have hres : ∃ texture, resolvedTexture r info.handle = some texture := by
    cases hsv : r.sprites[info.handle] with
    | Texture tex =>
      rw [hsv] at hs
      exact ⟨tex, by simp [resolvedTexture, hs]⟩
    | Sheet reg =>
      rw [hsv] at hs
      exact ⟨r.spritesheet, by simp [resolvedTexture, hs]⟩
  obtain ⟨texture, hres⟩ := hres
  refine ⟨texture, hres, ?_, ?_⟩
  · intro heq
    obtain ⟨b2, hadd, htex, nv, ni, hnv, hni, hv, hi⟩ := sprite_add_spec b info r hh
    refine ⟨b2, ?_, htex, hadd, nv, ni, hnv, hni, hv, hi⟩
    simp only [SpriteBatch.try_add, hres]
    rw [if_pos heq, hadd]
  · intro hne
    obtain ⟨nb, hadd, htex, nv, ni, hnv, hni, hv, hi⟩ :=
      sprite_add_spec ⟨texture, [], []⟩ info r hh
    refine ⟨nb, ?_, htex, hadd, ?_, ?_⟩
    · simp only [SpriteBatch.try_add, hres]
      rw [if_neg hne, hadd]
    · rw [hv, hnv.symm]
      simp
    · rw [hi, hni.symm]
      simp

/-- A concrete registry with two standalone sprites, for the witness. -/
def registry0 : SpriteRenderer :=
  ⟨[.Texture ⟨1, 8, 8⟩, .Texture ⟨2, 4, 4⟩], ⟨9, 16, 16⟩⟩

/-- Witness for C5: adding sprite 0 to a batch bound to texture 1. -/
theorem try_add_spec_witness :
    ∃ texture, resolvedTexture registry0 0 = some texture ∧
      (texture.tid = (SpriteBatch.mk ⟨1, 8, 8⟩ [] []).texture.tid →
        ∃ b2, (SpriteBatch.mk ⟨1, 8, 8⟩ [] []).try_add
            ⟨0, 0, 0, Transform.identity⟩ registry0 = some (.ok b2) ∧
          b2.texture = (SpriteBatch.mk ⟨1, 8, 8⟩ [] []).texture ∧
          (SpriteBatch.mk ⟨1, 8, 8⟩ [] []).add
            ⟨0, 0, 0, Transform.identity⟩ registry0 = some b2 ∧
          ∃ nv ni, nv.length = 4 ∧ ni.length = 6 ∧
            b2.vertices = (SpriteBatch.mk ⟨1, 8, 8⟩ [] []).vertices ++ nv ∧
            b2.indices = (SpriteBatch.mk ⟨1, 8, 8⟩ [] []).indices ++ ni) ∧
      (texture.tid ≠ (SpriteBatch.mk ⟨1, 8, 8⟩ [] []).texture.tid →
        ∃ nb, (SpriteBatch.mk ⟨1, 8, 8⟩ [] []).try_add
            ⟨0, 0, 0, Transform.identity⟩ registry0 = some (.error nb) ∧
          nb.texture = texture ∧
          SpriteBatch.add ⟨texture, [], []⟩
            ⟨0, 0, 0, Transform.identity⟩ registry0 = some nb ∧
          nb.vertices.length = 4 ∧ nb.indices.length = 6) :=
  try_add_spec (SpriteBatch.mk ⟨1, 8, 8⟩ [] []) ⟨0, 0, 0, Transform.identity⟩
    registry0 (by simp [registry0])

/-! ## Image creation (src/image.rs) -/

/-- Struct Image of image.rs; data is the raw RGBA8 byte buffer. -/
structure Image where
  data : List UInt8
  width : Nat
  height : Nat

/-- Image::from_data; the panic is modelled as an error carrying the
panic message. -/
def Image.from_data (data : List UInt8) (width height : Nat) : Except String Image :=
  if data.length ≠ width * height * 4 then
    .error "heart::image: data size does not match width and height"
  else
    .ok ⟨data, width, height⟩

/-- Counterexample for C8 as stated: the failure message of from_data is
not the string "data size does not match width and height"; the source
panics with the module-prefixed message. -/
theorem from_data_message_counterexample :
    Image.from_data [] 1 1 =
      Except.error "heart::image: data size does not match width and height" ∧
    "heart::image: data size does not match width and height" ≠
      "data size does not match width and height" := by
  constructor
  · rfl
  · decide

/-- C8 (amended): from_data fails exactly when the byte length differs
from width * height * 4, the failure message is "heart::image: data size
does not match width and height", and on success the returned Image holds
exactly the given data, width and height. -/
theorem from_data_spec (data : List UInt8) (width height : Nat) :
    ((∃ img, Image.from_data data width height = .ok img) ↔
      data.length = width * height * 4) ∧
    (∀ e, Image.from_data data width height = .error e →
      e = "heart::image: data size does not match width and height") ∧
    (∀ img, Image.from_data data width height = .ok img →
      img.data = data ∧ img.width = width ∧ img.height = height) := by
  by_cases hlen : data.length = width * height * 4
  · rw [Image.from_data, if_neg (by omega)]
    refine ⟨⟨fun _ => hlen, fun _ => ⟨⟨data, width, height⟩, rfl⟩⟩, ?_, ?_⟩
    · intro e he
      exact absurd he (by simp)
    · intro img himg
      obtain rfl : Image.mk data width height = img := by
        simpa using himg
      exact ⟨rfl, rfl, rfl⟩
  · rw [Image.from_data, if_pos (by omega)]
    refine ⟨⟨?_, fun h => absurd h hlen⟩, ?_, ?_⟩
    · intro hex
      obtain ⟨img, himg⟩ := hex
      exact absurd himg (by simp)
    · intro e he
      simpa using he.symm
    · intro img himg
      exact absurd himg (by simp)

/-- Witness for the amended C8 at a fitting and a mismatched input. -/
theorem from_data_spec_witness :
    ((∃ img, Image.from_data [0, 0, 0, 255] 1 1 = .ok img) ↔
      ([0, 0, 0, 255] : List UInt8).length = 1 * 1 * 4) ∧
    (∀ e, Image.from_data [0, 0, 0, 255] 1 1 = .error e →
      e = "heart::image: data size does not match width and height") ∧
    (∀ img, Image.from_data [0, 0, 0, 255] 1 1 = .ok img →
      img.data = [0, 0, 0, 255] ∧ img.width = 1 ∧ img.height = 1) :=
  from_data_spec [0, 0, 0, 255] 1 1

end Heart
